import Mathlib

/-!
Verification of the `muammar/amp-utils` repository against its specification.

The development shallowly embeds the control code of `src/mlutils/neb.py`
(the `accelerate` refinement loop of class `accelerate_neb`, its
`cross_validate` scoring method, the `run_neb` optimizer dispatch and the
module-level `check_files` restart scan) together with
`src/set.py` (`trained_calculations`, `common_calculations`).

External collaborators (the DFT/GPAW reference code, the Amp surrogate
trainer, ASE's NEB force assembly, the filesystem) are modelled as explicit
oracle parameters: functions supplying the values those collaborators would
return.  Floating point numbers are modelled as rationals.
-/

set_option maxHeartbeats 1000000

/-- Parameters of `accelerate_neb` fixed for a whole run (`__init__`,
`neb.py` lines 56-77): `tolerance`, `fmax` (the final force-convergence
target, called `targetFmax` here to avoid clashing with the loop-local
`fmax` variable), `step` (the divisor applied to the running fmax each
iteration) and `maxiter`. -/
structure AccelParams where
  tolerance : ℚ
  targetFmax : ℚ
  step : ℚ
  maxiter : ℕ

deriving instance DecidableEq for AccelParams

/-- The external world as seen by one run of `accelerate` (`neb.py` lines
363-628).  `report i` is the `(energy_error, force_error)` pair produced by
the `cross_validate` call of loop iteration `i`; `fileOk i` tells whether
`images_from_neb.traj` exists when iteration `i` checks for it
(`os.path.isfile`, lines 383, 406, 494, 570); `appended i` is the number of
interior images that iteration would append to `training.traj`. -/
structure AccelOracle where
  report : ℕ → ℚ × ℚ
  fileOk : ℕ → Bool
  appended : ℕ → ℕ

/-- The mutable state of the `while True:` loop in `accelerate` (`neb.py`
lines 363-628): `self.iteration`, the loop-local `fmax` variable, the last
cross-validation pair `self.achieved`, the `self.final_fmax` flag and the
length of `training.traj`. -/
structure LoopState where
  iteration : ℕ
  fmax : ℚ
  achieved : ℚ × ℚ
  final_fmax : Bool
  trainingLen : ℕ

deriving instance DecidableEq for LoopState

/-- The per-iteration fmax update of `accelerate` (`neb.py` lines 369-371):
`fmax = fmax / step` followed by
`if fmax < self.fmax or fmax == self.fmax: fmax = self.fmax`. -/
def nextFmax (P : AccelParams) (f : ℚ) : ℚ :=
  if f / P.step < P.targetFmax ∨ f / P.step = P.targetFmax then P.targetFmax
  else f / P.step

/-- Outcome of one pass through the `while True:` body of `accelerate`.
`cont` means the body fell through and the loop iterates again; `exhausted`
is the `break` at line 471 (maximum iterations reached); `converged` is the
`break` at line 483; `aborted` is the `exit()` after the
`images_from_neb.traj does not exist` diagnostic (lines 396, 418, 505, 582);
`attrErrored` models the uncaught `AttributeError` on `self.calc_write` at
line 531 in the (unreachable) `fmax < self.fmax` branch. -/
inductive StepResult where
  | cont (s : LoopState)
  | exhausted (s : LoopState)
  | converged (s : LoopState)
  | aborted (s : LoopState)
  | attrErrored (s : LoopState)

deriving instance DecidableEq for StepResult

/-- The shared body of the two retraining branches of `accelerate` (lines
380-466 and 561-628): check `images_from_neb.traj`, abort if missing,
otherwise append its interior images to `training.traj`, retrain, rerun the
band at `fmax`, cross-validate into `self.achieved`, and set
`self.final_fmax` when the fresh report is inside tolerance with
`fmax <= self.fmax` (lines 463-466, 625-628). -/
def trainStep (P : AccelParams) (O : AccelOracle) (it : ℕ) (fmax : ℚ)
    (s : LoopState) : StepResult :=
  if O.fileOk it = true then
    StepResult.cont
      { iteration := it
        fmax := fmax
        achieved := O.report it
        final_fmax :=
          if (O.report it).1 < P.tolerance ∧ (O.report it).2 < P.tolerance ∧
              fmax ≤ P.targetFmax then true
          else s.final_fmax
        trainingLen := s.trainingLen + O.appended it }
  else
    StepResult.aborted { s with iteration := it, fmax := fmax }

/-- One pass through the body of `while True:` in `accelerate` (`neb.py`
lines 363-628): increment `self.iteration`, update the running `fmax`
(lines 369-375), then the `if/elif` chain — retrain when the last report
exceeded tolerance in either component (line 377), otherwise `break` when
`self.iteration == self.maxiter` (line 468), otherwise `break` converged
when `fmax == self.fmax and self.final_fmax is True` (line 473), otherwise
the dead `fmax < self.fmax` branch (line 485, which would crash on the
nonexistent attribute `self.calc_write` at line 531 after appending), and
otherwise the final retraining branch (line 561). -/
def loopStep (P : AccelParams) (O : AccelOracle) (s : LoopState) : StepResult :=
  if s.achieved.1 > P.tolerance ∨ s.achieved.2 > P.tolerance then
    trainStep P O (s.iteration + 1) (nextFmax P s.fmax) s
  else if s.iteration + 1 = P.maxiter then
    StepResult.exhausted
      { s with iteration := s.iteration + 1, fmax := nextFmax P s.fmax }
  else if nextFmax P s.fmax = P.targetFmax ∧ s.final_fmax = true then
    StepResult.converged
      { s with iteration := s.iteration + 1, fmax := nextFmax P s.fmax }
  else if nextFmax P s.fmax < P.targetFmax then
    (if O.fileOk (s.iteration + 1) = true then
      StepResult.attrErrored
        { s with iteration := s.iteration + 1, fmax := nextFmax P s.fmax,
                 trainingLen := s.trainingLen + O.appended (s.iteration + 1) }
    else
      StepResult.aborted
        { s with iteration := s.iteration + 1, fmax := nextFmax P s.fmax })
  else
    trainStep P O (s.iteration + 1) (nextFmax P s.fmax) s

/-- Iterate `loopStep` for `n` passes (or until the loop body breaks,
aborts or crashes). `runN P O s n` is the situation after `n` executions of
the `while True:` body starting from state `s`. -/
def runN (P : AccelParams) (O : AccelOracle) (s : LoopState) : ℕ → StepResult
  | 0 => StepResult.cont s
  | n + 1 =>
    match runN P O s n with
    | StepResult.cont s' => loopStep P O s'
    | r => r

/-- The loop state carried by any `StepResult`. -/
def resultState : StepResult → LoopState
  | StepResult.cont s => s
  | StepResult.exhausted s => s
  | StepResult.converged s => s
  | StepResult.aborted s => s
  | StepResult.attrErrored s => s

/-- Invariant backing claim C2: whenever `self.final_fmax` is set, either
the running fmax sits at `self.fmax` with the stored report strictly inside
tolerance, or (only possible when dividing by `step` moves a value at
`targetFmax` away from it) the running fmax is strictly above the target. -/
def ConvInv (P : AccelParams) (s : LoopState) : Prop :=
  s.final_fmax = true →
    (s.fmax = P.targetFmax ∧ s.achieved.1 < P.tolerance ∧
      s.achieved.2 < P.tolerance)
    ∨ (P.targetFmax < s.fmax ∧ P.targetFmax < P.targetFmax / P.step)

/-- An atomic configuration as stored in an ASE trajectory: an abstract
geometry identifier plus the energy/forces attached when it was last
evaluated (`get_potential_energy`/`get_forces` on a trajectory-read image
return these stored values).  Forces are a `natoms x 3` matrix. -/
structure Image where
  geom : ℕ
  storedE : ℚ
  storedF : List (List ℚ)

deriving instance DecidableEq for Image

/-- A calculator (reference DFT code or Amp surrogate): energy and forces
as a function of the geometry. -/
structure Calc where
  energy : ℕ → ℚ
  forces : ℕ → List (List ℚ)

/-- Python's `str.lower()` (ASCII lowering of every character).  Lean's
`String.toLower` is the same character map but is defined by position-based
recursion; this list-based form evaluates on concrete strings. -/
def pyLower (s : String) : String :=
  String.mk (s.data.map Char.toLower)

/-- Attaching a calculator to an image and evaluating it
(`image.set_calculator(calc)` followed by `get_potential_energy` and
`get_forces`, as in `set_calculators`, `neb.py` lines 797-801). -/
def evalWith (c : Calc) (im : Image) : Image :=
  { geom := im.geom, storedE := c.energy im.geom, storedF := c.forces im.geom }

/-- `forces.sum(axis=1)`: the per-atom sum of the three force components
(`neb.py` lines 687, 712). -/
def sumAxis1 (m : List (List ℚ)) : List ℚ :=
  m.map List.sum

/-- `sklearn.metrics.mean_absolute_error` on two equal-length vectors:
the mean of the absolute componentwise differences. -/
def maeList (y_true y_pred : List ℚ) : ℚ :=
  (((y_true.zip y_pred).map fun p => |p.1 - p.2|).sum) / y_true.length

/-- The Python slice `images[1:-1]` used by `set_calculators` when
`cross_validate=True` (`neb.py` lines 794-795, 806): the interior
(non-endpoint) images. -/
def interiorOf (images : List Image) : List Image :=
  (images.drop 1).dropLast

/-- `get_fmax` (`neb.py` lines 825-829) up to the final monotone
`np.sqrt`: builds an ASE `NEB` object over the images, asks it for the
stacked per-atom force rows (`neb.get_forces()`, modelled by the external
oracle `nebForces`), and takes the maximum row sum-of-squares
(`(forces**2).sum(axis=1).max()`).  The source then returns the square
root of this value; since `np.sqrt` is strictly monotone and applied to
both returned components alike, it is omitted from the rational model. -/
def get_fmax_sq (nebForces : List Image → List (List ℚ))
    (images : List Image) : ℚ :=
  ((nebForces images).map fun row => (row.map fun x => x * x).sum).foldr max 0

/-- `cross_validate` (`neb.py` lines 654-734).  The surrogate side
evaluates every probe image with `amp_calc` (lines 680-687; the
`cross_validate=True` slicing is not requested there).  The "reference"
side re-evaluates only the interior images (line 693-694 call
`set_calculators(..., cross_validate=True)`), and does so with the
external GPAW process when `self.calc_name == 'GPAW'` — but with
`amp_calc` itself otherwise, because line 693 passes `amp_calc`, not the
unused `calc` parameter, to `set_calculators`.  The endpoint reference
values are taken from the stored training set (`self.training_set[0]` and
`self.training_set[len(dft_images)]`, lines 697, 704), passed here as
`ts_first`/`ts_last`.  Under `metric == 'fmax'` both components are
`get_fmax` of the assembled `dft_images`; under `metric.lower() == 'mae'`
they are the mean absolute errors of the energies and of the summed
per-image force vectors; any other metric returns `None` (the method falls
off its end). -/
def cross_validate (calcIsGpaw : Bool) (gpaw_calc : Calc)
    (nebForces : List Image → List (List ℚ))
    (neb_images : List Image) (amp_calc : Calc)
    (ts_first ts_last : Image) (metric : String) : Option (ℚ × ℚ) :=
  let amp_images := neb_images.map (evalWith amp_calc)
  let amp_energies := amp_images.map Image.storedE
  let amp_forces := amp_images.map fun im => sumAxis1 im.storedF
  let dft_intermediates :=
    if calcIsGpaw then (interiorOf neb_images).map (evalWith gpaw_calc)
    else (interiorOf neb_images).map (evalWith amp_calc)
  let dft_images := ts_first :: dft_intermediates ++ [ts_last]
  let dft_energies := dft_images.map Image.storedE
  let dft_forces := dft_images.map fun im => sumAxis1 im.storedF
  if metric = "fmax" then
    some (get_fmax_sq nebForces dft_images, get_fmax_sq nebForces dft_images)
  else if pyLower metric = "mae" then
    some (maeList dft_energies amp_energies,
          maeList dft_forces.flatten amp_forces.flatten)
  else
    none

/-- Outcome of the optimizer dispatch in `run_neb` with `interpolate=False`
(`neb.py` lines 277-287): `ran opt` means the optimizer `opt` was
constructed and `qn.run(...)` is reached; `nameError` means neither
`if`-arm assigned `qn`, so the subsequent `qn.run(fmax=fmax)` raises an
uncaught `UnboundLocalError` (a `NameError`) before any optimization step
runs. -/
inductive NebDispatch where
  | ran (optimizerUsed : String)
  | nameError

deriving instance DecidableEq for NebDispatch

/-- The optimizer dispatch of `run_neb` (`neb.py` lines 277-287):
`self.neb_optimizer.lower()` is compared against `'bfgs'` and `'fire'`. -/
def run_neb_optimizer_dispatch (neb_optimizer : String) : NebDispatch :=
  if pyLower neb_optimizer = "bfgs" then NebDispatch.ran "BFGS"
  else if pyLower neb_optimizer = "fire" then NebDispatch.ran "FIRE"
  else NebDispatch.nameError

/-- Python's lexicographic `<=` on strings (code-point comparison),
as used by `sorted()` in `check_files`. -/
def charListLe : List Char → List Char → Bool
  | [], _ => true
  | _ :: _, [] => false
  | a :: as, b :: bs =>
    if a.toNat < b.toNat then true
    else if b.toNat < a.toNat then false
    else charListLe as bs

/-- Python's string ordering, as a relation on Lean strings. -/
def pyStrLe (s t : String) : Prop :=
  charListLe s.data t.data = true

instance : DecidableRel pyStrLe :=
  fun s t => inferInstanceAs (Decidable (charListLe s.data t.data = true))

/-- The first character of a Python string: `s[0]` (total model, padding
empty strings with a blank; `check_files` only applies it to filenames
produced by `glob`, which are nonempty). -/
def firstChar (s : String) : Char :=
  s.data.headD ' '

/-- `check_files` (`neb.py` lines 886-910): sort the `*.txt` listing,
drop `amp-log.txt` and `out.txt` (each removed once when present, as
`list.remove` does), and if anything remains take `logfiles[-1][0]` — the
FIRST CHARACTER of the lexicographically last filename — as `digit`, then
report `('neb_%s.traj' % digit, digit)` when that trajectory exists and
`(False, digit)` otherwise; `(False, None)` when nothing remains.  Python's
`False`/`None` results are modelled by `none`. -/
def check_files (txtFiles : List String) (isfile : String → Bool) :
    Option String × Option String :=
  let logfiles :=
    ((List.insertionSort pyStrLe txtFiles).erase "amp-log.txt").erase "out.txt"
  if logfiles.length ≠ 0 then
    let digit := String.mk ((logfiles.getLastD "").data.take 1)
    let nebfile := "neb_" ++ digit ++ ".traj"
    if isfile nebfile = true then (some nebfile, some digit)
    else (none, some digit)
  else (none, none)

/-- The maximal run of leading decimal digits of a filename. -/
def leadingDigits : List Char → List Char
  | [] => []
  | c :: cs => if c.isDigit then c :: leadingDigits cs else []

/-- The leading decimal number of a filename (0 when there is none). -/
def leadingNat (s : String) : ℕ :=
  (leadingDigits s.data).foldl (fun n c => 10 * n + (c.toNat - 48)) 0

/-- Claim-side definition, following the words of the specification's
"Restart discovery" contract: the highest iteration number among the
per-iteration `*.txt` files present in the listing (ignoring the
`amp-log.txt` and `out.txt` files that `check_files` itself discards). -/
def highestIterationSpec (txtFiles : List String) : ℕ :=
  (((txtFiles.erase "amp-log.txt").erase "out.txt").map leadingNat).foldr max 0

/-- Substring test: does `needle` occur as a prefix of `hay`?  Helper for
Python's `in` operator on strings. -/
def listStartsWith : List Char → List Char → Bool
  | _, [] => true
  | [], _ :: _ => false
  | a :: as, b :: bs => a == b && listStartsWith as bs

/-- Python's `needle in hay` substring test on strings. -/
def containsSub : List Char → List Char → Bool
  | [], needle => needle.isEmpty
  | h :: t, needle => listStartsWith (h :: t) needle || containsSub t needle

/-- `common_calculations` (`set.py` lines 14-16):
`list(set(list1).intersection(list2))` — the set intersection of the two
listings (the Python function returns it as a list in unspecified set
order, so the model returns the finite set itself). -/
def common_calculations (list1 list2 : List String) : Finset String :=
  list1.toFinset ∩ list2.toFinset

/-- `trained_calculations` (`set.py` lines 7-12): from the `*.amp` glob
listing (taken as input), drop entries containing `'initial'`, collect as
`failed` the remaining entries containing `'untrained'`, and return
`common_calculations(listing, failed)`. -/
def trained_calculations (listing : List String) : Finset String :=
  let listing2 := listing.filter fun e => !(containsSub e.data "initial".data)
  let failed := listing2.filter fun e => containsSub e.data "untrained".data
  common_calculations listing2 failed

/-! ### Helper lemmas about the fmax update -/

theorem targetFmax_le_nextFmax (P : AccelParams) (f : ℚ) :
    P.targetFmax ≤ nextFmax P f := by
  unfold nextFmax
  split_ifs with h
  · exact le_refl _
  · push_neg at h
    exact h.1

theorem nextFmax_of_absorbing (P : AccelParams)
    (habs : P.targetFmax / P.step ≤ P.targetFmax) :
    nextFmax P P.targetFmax = P.targetFmax := by
  unfold nextFmax
  split_ifs with h
  · rfl
  · exact absurd habs.lt_or_eq h

theorem nextFmax_of_escape (P : AccelParams)
    (hesc : P.targetFmax < P.targetFmax / P.step) :
    nextFmax P P.targetFmax = P.targetFmax / P.step := by
  unfold nextFmax
  split_ifs with h
  · rcases h with h | h
    · exact absurd hesc (not_lt.mpr h.le)
    · rw [h] at hesc; exact absurd hesc (lt_irrefl _)
  · rfl

theorem nextFmax_escape_persists (P : AccelParams) (hstep : 0 < P.step)
    (hesc : P.targetFmax < P.targetFmax / P.step) (f : ℚ)
    (hf : P.targetFmax < f) : P.targetFmax < nextFmax P f := by
  have h1 : P.targetFmax * P.step < P.targetFmax := (lt_div_iff₀ hstep).mp hesc
  have h2 : P.targetFmax < f / P.step := by
    rw [lt_div_iff₀ hstep]
    exact h1.trans hf
  unfold nextFmax
  split_ifs with h
  · rcases h with h | h
    · exact absurd h2 (not_lt.mpr h.le)
    · rw [h] at h2; exact absurd h2 (lt_irrefl _)
  · exact h2

theorem loopStep_resultState_fmax (P : AccelParams) (O : AccelOracle)
    (s : LoopState) :
    (resultState (loopStep P O s)).fmax = nextFmax P s.fmax := by
  unfold loopStep trainStep
  split_ifs <;> rfl

theorem runN_succ (P : AccelParams) (O : AccelOracle) (s : LoopState) (n : ℕ) :
    runN P O s (n + 1) = match runN P O s n with
      | StepResult.cont s' => loopStep P O s'
      | r => r := rfl

theorem runN_succ_of_cont (P : AccelParams) (O : AccelOracle) (s : LoopState)
    (n : ℕ) (s' : LoopState) (h : runN P O s n = StepResult.cont s') :
    runN P O s (n + 1) = loopStep P O s' := by
  rw [runN_succ, h]

/-! ### C1 -/

/-- Claim C1 (code bug): with `maxiter = 1` and a cross-validation report
that always exceeds the tolerance (while `images_from_neb.traj` always
exists), the loop does NOT stop after 1 iteration: the retraining branch is
taken at every pass because the `self.iteration == self.maxiter` test is an
`elif` behind the tolerance test, so passes 2 and 3 still continue and the
`EXHAUSTED` break is never reached. -/
theorem accelerate_never_exhausts_when_tolerance_unmet :
    (⟨1 / 100, 1 / 20, 1, 1⟩ : AccelParams).maxiter = 1 ∧
    runN ⟨1 / 100, 1 / 20, 1, 1⟩ ⟨fun _ => (1, 1), fun _ => true, fun _ => 2⟩
        ⟨0, 1 / 20, (1, 1), false, 10⟩ 2
      = StepResult.cont ⟨2, 1 / 20, (1, 1), false, 14⟩ ∧
    runN ⟨1 / 100, 1 / 20, 1, 1⟩ ⟨fun _ => (1, 1), fun _ => true, fun _ => 2⟩
        ⟨0, 1 / 20, (1, 1), false, 10⟩ 3
      = StepResult.cont ⟨3, 1 / 20, (1, 1), false, 16⟩ := by
  have h1 : runN ⟨1 / 100, 1 / 20, 1, 1⟩
      ⟨fun _ => (1, 1), fun _ => true, fun _ => 2⟩
      ⟨0, 1 / 20, (1, 1), false, 10⟩ 1
      = StepResult.cont ⟨1, 1 / 20, (1, 1), false, 12⟩ := by
    rw [runN_succ_of_cont _ _ _ 0 _ rfl]
    norm_num [loopStep, trainStep, nextFmax]
  have h2 : runN ⟨1 / 100, 1 / 20, 1, 1⟩
      ⟨fun _ => (1, 1), fun _ => true, fun _ => 2⟩
      ⟨0, 1 / 20, (1, 1), false, 10⟩ 2
      = StepResult.cont ⟨2, 1 / 20, (1, 1), false, 14⟩ := by
    rw [runN_succ_of_cont _ _ _ 1 _ h1]
    norm_num [loopStep, trainStep, nextFmax]
  have h3 : runN ⟨1 / 100, 1 / 20, 1, 1⟩
      ⟨fun _ => (1, 1), fun _ => true, fun _ => 2⟩
      ⟨0, 1 / 20, (1, 1), false, 10⟩ 3
      = StepResult.cont ⟨3, 1 / 20, (1, 1), false, 16⟩ := by
    rw [runN_succ_of_cont _ _ _ 2 _ h2]
    norm_num [loopStep, trainStep, nextFmax]
  exact ⟨rfl, h2, h3⟩

/-! ### C3 -/

/-- Claim C3, amended: for a step divisor `step >= 1` and a nonnegative
force target, from any loop state whose running fmax is at least
`targetFmax` (which holds from the first pass on, whatever the initial
`ifmax`), the fmax used by the next iteration is clamped at `targetFmax`
from below and does not exceed the fmax of the previous iteration. -/
theorem accelerate_fmax_clamped_and_monotone (P : AccelParams)
    (O : AccelOracle) (s : LoopState) (hstep : 1 ≤ P.step)
    (htarget : 0 ≤ P.targetFmax) (hf : P.targetFmax ≤ s.fmax) :
    P.targetFmax ≤ (resultState (loopStep P O s)).fmax ∧
    (resultState (loopStep P O s)).fmax ≤ s.fmax := by
  rw [loopStep_resultState_fmax]
  refine ⟨targetFmax_le_nextFmax P s.fmax, ?_⟩
  unfold nextFmax
  split_ifs with h
  · exact hf
  · exact div_le_self (htarget.trans hf) hstep

/-- Witness for C3: at `tolerance = 1/100`, `targetFmax = 1`, `step = 2`
and a state with running fmax `4`, the next fmax stays in `[1, 4]`. -/
theorem accelerate_fmax_clamped_and_monotone_witness :
    ((1 : ℚ) ≤ (⟨1 / 100, 1, 2, 9⟩ : AccelParams).step) ∧
    ((0 : ℚ) ≤ (⟨1 / 100, 1, 2, 9⟩ : AccelParams).targetFmax) ∧
    ((⟨1 / 100, 1, 2, 9⟩ : AccelParams).targetFmax ≤
      (⟨0, 4, (2, 2), false, 0⟩ : LoopState).fmax) ∧
    ((⟨1 / 100, 1, 2, 9⟩ : AccelParams).targetFmax ≤
      (resultState (loopStep ⟨1 / 100, 1, 2, 9⟩
        ⟨fun _ => (2, 2), fun _ => true, fun _ => 1⟩
        ⟨0, 4, (2, 2), false, 0⟩)).fmax ∧
     (resultState (loopStep ⟨1 / 100, 1, 2, 9⟩
        ⟨fun _ => (2, 2), fun _ => true, fun _ => 1⟩
        ⟨0, 4, (2, 2), false, 0⟩)).fmax ≤
      (⟨0, 4, (2, 2), false, 0⟩ : LoopState).fmax) :=
  ⟨by norm_num, by norm_num, by norm_num,
    accelerate_fmax_clamped_and_monotone _ _ _ (by norm_num) (by norm_num)
      (by norm_num)⟩

/-- Counterexample to C3 as stated ("with any step_divisor the caller
supplies"): with `step = 1/2`, a running fmax of `1` and `targetFmax = 1`,
the next iteration uses fmax `2 > 1` — the threshold increases. -/
theorem accelerate_fmax_increases_for_fractional_step :
    (resultState (loopStep ⟨1, 1, 1 / 2, 9⟩
        ⟨fun _ => (2, 2), fun _ => true, fun _ => 1⟩
        ⟨0, 1, (2, 2), false, 0⟩)).fmax = 2 ∧
    ¬ ((resultState (loopStep ⟨1, 1, 1 / 2, 9⟩
        ⟨fun _ => (2, 2), fun _ => true, fun _ => 1⟩
        ⟨0, 1, (2, 2), false, 0⟩)).fmax ≤
      (⟨0, 1, (2, 2), false, 0⟩ : LoopState).fmax) := by
  norm_num [loopStep, trainStep, nextFmax, resultState]

/-! ### C7 -/

/-- Claim C7: when `images_from_neb.traj` does not exist at the start of a
pass, the pass can never fall through to the next iteration: it either hits
one of the two terminal `break`s (which do not consume the file) or, in
every branch that would consume the file, writes the
`images_from_neb.traj does not exist / Aborting...` diagnostic and calls
`exit()` BEFORE opening `training.traj` for append — so the aborted state
carries the training set unchanged (its `trainingLen` is still
`s.trainingLen`). -/
theorem accelerate_missing_file_aborts_without_append (P : AccelParams)
    (O : AccelOracle) (s : LoopState)
    (hfile : O.fileOk (s.iteration + 1) = false) :
    loopStep P O s =
      StepResult.exhausted
        { s with iteration := s.iteration + 1, fmax := nextFmax P s.fmax } ∨
    loopStep P O s =
      StepResult.converged
        { s with iteration := s.iteration + 1, fmax := nextFmax P s.fmax } ∨
    (loopStep P O s =
      StepResult.aborted
        { s with iteration := s.iteration + 1, fmax := nextFmax P s.fmax } ∧
     ({ s with iteration := s.iteration + 1,
               fmax := nextFmax P s.fmax } : LoopState).trainingLen
        = s.trainingLen) := by
  unfold loopStep trainStep
  rw [hfile]
  split_ifs <;> simp_all

/-- Witness for C7: a concrete state in the retraining branch with the
file missing aborts with the training set untouched. -/
theorem accelerate_missing_file_aborts_without_append_witness :
    ((⟨fun _ => (1, 1), fun _ => false, fun _ => 3⟩ : AccelOracle).fileOk
        ((⟨0, 2, (5, 5), false, 7⟩ : LoopState).iteration + 1) = false) ∧
    (loopStep ⟨1, 1, 1, 9⟩ ⟨fun _ => (1, 1), fun _ => false, fun _ => 3⟩
        ⟨0, 2, (5, 5), false, 7⟩ =
      StepResult.exhausted ⟨1, nextFmax ⟨1, 1, 1, 9⟩ 2, (5, 5), false, 7⟩ ∨
     loopStep ⟨1, 1, 1, 9⟩ ⟨fun _ => (1, 1), fun _ => false, fun _ => 3⟩
        ⟨0, 2, (5, 5), false, 7⟩ =
      StepResult.converged ⟨1, nextFmax ⟨1, 1, 1, 9⟩ 2, (5, 5), false, 7⟩ ∨
     (loopStep ⟨1, 1, 1, 9⟩ ⟨fun _ => (1, 1), fun _ => false, fun _ => 3⟩
        ⟨0, 2, (5, 5), false, 7⟩ =
      StepResult.aborted ⟨1, nextFmax ⟨1, 1, 1, 9⟩ 2, (5, 5), false, 7⟩ ∧
      ((⟨1, nextFmax ⟨1, 1, 1, 9⟩ 2, (5, 5), false, 7⟩ :
          LoopState)).trainingLen
        = (⟨0, 2, (5, 5), false, 7⟩ : LoopState).trainingLen)) :=
  ⟨rfl, accelerate_missing_file_aborts_without_append _ _ _ rfl⟩

/-! ### C9 -/

/-- Claim C9: `run_neb` with `interpolate=False` reaches the uncaught
`NameError` (`qn` unbound) exactly when the lower-cased optimizer name is
neither `'bfgs'` nor `'fire'`; for those two names an optimizer is
constructed and the run proceeds. -/
theorem run_neb_dispatch_name_error_iff (neb_optimizer : String) :
    run_neb_optimizer_dispatch neb_optimizer = NebDispatch.nameError ↔
      ¬ (pyLower neb_optimizer = "bfgs" ∨ pyLower neb_optimizer = "fire") := by
  unfold run_neb_optimizer_dispatch
  split_ifs with h1 h2 <;> simp_all

/-! ### C10 -/

/-- Claim C10: `trained_calculations` returns, as a set, exactly the
listing entries that contain `'untrained'` and do not contain `'initial'`
— i.e. the failed (untrained) calculations, never the successfully trained
ones. -/
theorem trained_calculations_returns_failed_untrained (listing : List String) :
    trained_calculations listing =
      (listing.filter fun e =>
        containsSub e.data "untrained".data &&
          !(containsSub e.data "initial".data)).toFinset := by
  ext x
  simp only [trained_calculations, common_calculations, Finset.mem_inter,
    List.mem_toFinset, List.mem_filter, Bool.and_eq_true, Bool.not_eq_true']
  constructor
  · rintro ⟨⟨hx, hni⟩, -, hu⟩
    exact ⟨hx, hu, hni⟩
  · rintro ⟨hx, hu, hni⟩
    exact ⟨⟨hx, hni⟩, ⟨hx, hni⟩, hu⟩

/-! ### C2 -/

theorem trainStep_cont (P : AccelParams) (O : AccelOracle) (it : ℕ) (f : ℚ)
    (s s' : LoopState) (h : trainStep P O it f s = StepResult.cont s') :
    s' = { iteration := it, fmax := f, achieved := O.report it,
           final_fmax :=
             if (O.report it).1 < P.tolerance ∧ (O.report it).2 < P.tolerance ∧
                 f ≤ P.targetFmax then true
             else s.final_fmax,
           trainingLen := s.trainingLen + O.appended it } := by
  unfold trainStep at h
  by_cases hf : O.fileOk it = true
  · rw [if_pos hf] at h
    injection h with h1
    exact h1.symm
  · rw [if_neg hf] at h
    cases h

theorem loopStep_cont_ConvInv (P : AccelParams) (O : AccelOracle)
    (hstep : 0 < P.step) (s s' : LoopState) (hinv : ConvInv P s)
    (h : loopStep P O s = StepResult.cont s') : ConvInv P s' := by
  unfold loopStep at h
  by_cases g1 : s.achieved.1 > P.tolerance ∨ s.achieved.2 > P.tolerance
  · rw [if_pos g1] at h
    have hs' := trainStep_cont P O _ _ s s' h
    subst hs'
    intro hff
    by_cases hcond : (O.report (s.iteration + 1)).1 < P.tolerance ∧
        (O.report (s.iteration + 1)).2 < P.tolerance ∧
        nextFmax P s.fmax ≤ P.targetFmax
    · left
      exact ⟨le_antisymm hcond.2.2 (targetFmax_le_nextFmax P s.fmax),
        hcond.1, hcond.2.1⟩
    · have hsf : s.final_fmax = true := by
        simpa [if_neg hcond] using hff
      rcases hinv hsf with ⟨hft, ha1, ha2⟩ | ⟨hgt, hesc⟩
      · exfalso
        rcases g1 with g | g
        · exact absurd g (not_lt.mpr ha1.le)
        · exact absurd g (not_lt.mpr ha2.le)
      · right
        exact ⟨nextFmax_escape_persists P hstep hesc s.fmax hgt, hesc⟩
  · rw [if_neg g1] at h
    by_cases g2 : s.iteration + 1 = P.maxiter
    · rw [if_pos g2] at h
      cases h
    · rw [if_neg g2] at h
      by_cases g3 : nextFmax P s.fmax = P.targetFmax ∧ s.final_fmax = true
      · rw [if_pos g3] at h
        cases h
      · rw [if_neg g3] at h
        by_cases g4 : nextFmax P s.fmax < P.targetFmax
        · rw [if_pos g4] at h
          by_cases g5 : O.fileOk (s.iteration + 1) = true
          · rw [if_pos g5] at h
            cases h
          · rw [if_neg g5] at h
            cases h
        · rw [if_neg g4] at h
          have hs' := trainStep_cont P O _ _ s s' h
          subst hs'
          intro hff
          by_cases hcond : (O.report (s.iteration + 1)).1 < P.tolerance ∧
              (O.report (s.iteration + 1)).2 < P.tolerance ∧
              nextFmax P s.fmax ≤ P.targetFmax
          · left
            exact ⟨le_antisymm hcond.2.2 (targetFmax_le_nextFmax P s.fmax),
              hcond.1, hcond.2.1⟩
          · have hsf : s.final_fmax = true := by
              simpa [if_neg hcond] using hff
            rcases hinv hsf with ⟨hft, ha1, ha2⟩ | ⟨hgt, hesc⟩
            · right
              have hne : nextFmax P s.fmax ≠ P.targetFmax :=
                fun hEq => g3 ⟨hEq, hsf⟩
              by_cases habs : P.targetFmax / P.step ≤ P.targetFmax
              · exfalso
                apply hne
                rw [hft]
                exact nextFmax_of_absorbing P habs
              · have hesc2 : P.targetFmax < P.targetFmax / P.step :=
                  not_le.mp habs
                constructor
                · rw [hft, nextFmax_of_escape P hesc2]
                  exact hesc2
                · exact hesc2
            · right
              exact ⟨nextFmax_escape_persists P hstep hesc s.fmax hgt, hesc⟩

theorem loopStep_converged_joint (P : AccelParams) (O : AccelOracle)
    (hstep : 0 < P.step) (s s' : LoopState) (hinv : ConvInv P s)
    (h : loopStep P O s = StepResult.converged s') :
    s'.achieved.1 < P.tolerance ∧ s'.achieved.2 < P.tolerance ∧
      s'.fmax = P.targetFmax := by
  unfold loopStep at h
  by_cases g1 : s.achieved.1 > P.tolerance ∨ s.achieved.2 > P.tolerance
  · rw [if_pos g1] at h
    unfold trainStep at h
    split_ifs at h
  · rw [if_neg g1] at h
    by_cases g2 : s.iteration + 1 = P.maxiter
    · rw [if_pos g2] at h
      cases h
    · rw [if_neg g2] at h
      by_cases g3 : nextFmax P s.fmax = P.targetFmax ∧ s.final_fmax = true
      · rw [if_pos g3] at h
        injection h with hA
        subst hA
        rcases hinv g3.2 with ⟨hft, ha1, ha2⟩ | ⟨hgt, hesc⟩
        · exact ⟨ha1, ha2, g3.1⟩
        · exfalso
          have hp := nextFmax_escape_persists P hstep hesc s.fmax hgt
          rw [g3.1] at hp
          exact lt_irrefl _ hp
      · rw [if_neg g3] at h
        by_cases g4 : nextFmax P s.fmax < P.targetFmax
        · rw [if_pos g4] at h
          by_cases g5 : O.fileOk (s.iteration + 1) = true
          · rw [if_pos g5] at h
            cases h
          · rw [if_neg g5] at h
            cases h
        · rw [if_neg g4] at h
          unfold trainStep at h
          split_ifs at h

theorem runN_cont_ConvInv (P : AccelParams) (O : AccelOracle)
    (hstep : 0 < P.step) (s0 : LoopState) (h0 : s0.final_fmax = false) :
    ∀ n s', runN P O s0 n = StepResult.cont s' → ConvInv P s' := by
  intro n
  induction n with
  | zero =>
    intro s' h
    injection h with h1
    subst h1
    intro hff
    rw [h0] at hff
    cases hff
  | succ n ih =>
    intro s' h
    cases hr : runN P O s0 n with
    | cont s1 =>
      rw [runN_succ_of_cont P O s0 n s1 hr] at h
      exact loopStep_cont_ConvInv P O hstep s1 s' (ih s1 hr) h
    | exhausted s1 =>
      have he : runN P O s0 (n + 1) = StepResult.exhausted s1 := by
        rw [runN_succ, hr]
      rw [he] at h
      cases h
    | converged s1 =>
      have he : runN P O s0 (n + 1) = StepResult.converged s1 := by
        rw [runN_succ, hr]
      rw [he] at h
      cases h
    | aborted s1 =>
      have he : runN P O s0 (n + 1) = StepResult.aborted s1 := by
        rw [runN_succ, hr]
      rw [he] at h
      cases h
    | attrErrored s1 =>
      have he : runN P O s0 (n + 1) = StepResult.attrErrored s1 := by
        rw [runN_succ, hr]
      rw [he] at h
      cases h

/-- Claim C2, amended: for every execution of `accelerate` whose step
divisor is positive, the loop can reach the `Calculation converged!` break
only in a state whose current accuracy report satisfies
`energy_error < tolerance` and `force_error < tolerance` strictly and whose
running fmax equals the target `self.fmax`, all simultaneously.  (With a
non-positive step divisor the never-reset `self.final_fmax` flag can
declare convergence while an error equals the tolerance exactly — see the
counterexample.) -/
theorem accelerate_converged_requires_joint_condition (P : AccelParams)
    (O : AccelOracle) (hstep : 0 < P.step) (s0 : LoopState)
    (h0 : s0.final_fmax = false) (n : ℕ) (s' : LoopState)
    (h : runN P O s0 n = StepResult.converged s') :
    s'.achieved.1 < P.tolerance ∧ s'.achieved.2 < P.tolerance ∧
      s'.fmax = P.targetFmax := by
  induction n generalizing s' with
  | zero => cases h
  | succ n ih =>
    cases hr : runN P O s0 n with
    | cont s1 =>
      rw [runN_succ_of_cont P O s0 n s1 hr] at h
      exact loopStep_converged_joint P O hstep s1 s'
        (runN_cont_ConvInv P O hstep s0 h0 n s1 hr) h
    | exhausted s1 =>
      have he : runN P O s0 (n + 1) = StepResult.exhausted s1 := by
        rw [runN_succ, hr]
      rw [he] at h
      cases h
    | converged s1 =>
      have he : runN P O s0 (n + 1) = StepResult.converged s1 := by
        rw [runN_succ, hr]
      rw [he] at h
      injection h with h1
      subst h1
      exact ih _ hr
    | aborted s1 =>
      have he : runN P O s0 (n + 1) = StepResult.aborted s1 := by
        rw [runN_succ, hr]
      rw [he] at h
      cases h
    | attrErrored s1 =>
      have he : runN P O s0 (n + 1) = StepResult.attrErrored s1 := by
        rw [runN_succ, hr]
      rw [he] at h
      cases h

/-- Witness for C2: a run with `tolerance = targetFmax = step = 1` whose
second pass converges; the theorem yields the joint strict condition. -/
theorem accelerate_converged_requires_joint_condition_witness :
    (0 : ℚ) < (⟨1, 1, 1, 5⟩ : AccelParams).step ∧
    (⟨0, 1, (2, 2), false, 0⟩ : LoopState).final_fmax = false ∧
    ((⟨2, 1, (0, 0), true, 1⟩ : LoopState).achieved.1 <
        (⟨1, 1, 1, 5⟩ : AccelParams).tolerance ∧
     (⟨2, 1, (0, 0), true, 1⟩ : LoopState).achieved.2 <
        (⟨1, 1, 1, 5⟩ : AccelParams).tolerance ∧
     (⟨2, 1, (0, 0), true, 1⟩ : LoopState).fmax =
        (⟨1, 1, 1, 5⟩ : AccelParams).targetFmax) :=
  ⟨by norm_num, rfl,
    accelerate_converged_requires_joint_condition ⟨1, 1, 1, 5⟩
      ⟨fun i => if i = 1 then (0, 0) else (2, 2), fun _ => true, fun _ => 1⟩
      (by norm_num) ⟨0, 1, (2, 2), false, 0⟩ rfl 2 ⟨2, 1, (0, 0), true, 1⟩
      (by
        have h1 : runN ⟨1, 1, 1, 5⟩
            ⟨fun i => if i = 1 then (0, 0) else (2, 2), fun _ => true,
              fun _ => 1⟩
            ⟨0, 1, (2, 2), false, 0⟩ 1
            = StepResult.cont ⟨1, 1, (0, 0), true, 1⟩ := by
          rw [runN_succ_of_cont _ _ _ 0 _ rfl]
          norm_num [loopStep, trainStep, nextFmax]
        rw [runN_succ_of_cont _ _ _ 1 _ h1]
        norm_num [loopStep, trainStep, nextFmax])⟩

/-- Counterexample to C2 as stated ("for every execution"): with
`step = -1` (a value the caller may supply), `tolerance = 1` and
`targetFmax = -1`, the run first sets `final_fmax` (report `(0,0)` at fmax
`-1`), then a pass at fmax `1` stores the report `(1, 1)` — exactly equal
to the tolerance, so not within it strictly — without resetting
`final_fmax`, and the third pass breaks `CONVERGED` carrying that boundary
report: the loop terminates in the success state although
`energy_error < tolerance` fails. -/
theorem accelerate_converged_at_exact_tolerance :
    runN ⟨1, -1, -1, 100⟩
        ⟨fun i => if i = 1 then (0, 0) else if i = 2 then (1, 1) else (2, 2),
         fun _ => true, fun _ => 1⟩
        ⟨0, 1, (2, 2), false, 0⟩ 3
      = StepResult.converged ⟨3, -1, (1, 1), true, 2⟩ ∧
    ¬ ((⟨3, -1, (1, 1), true, 2⟩ : LoopState).achieved.1 <
        (⟨1, -1, -1, 100⟩ : AccelParams).tolerance) := by
  constructor
  · have h1 : runN ⟨1, -1, -1, 100⟩
        ⟨fun i => if i = 1 then (0, 0) else if i = 2 then (1, 1) else (2, 2),
         fun _ => true, fun _ => 1⟩
        ⟨0, 1, (2, 2), false, 0⟩ 1
        = StepResult.cont ⟨1, -1, (0, 0), true, 1⟩ := by
      rw [runN_succ_of_cont _ _ _ 0 _ rfl]
      norm_num [loopStep, trainStep, nextFmax]
    have h2 : runN ⟨1, -1, -1, 100⟩
        ⟨fun i => if i = 1 then (0, 0) else if i = 2 then (1, 1) else (2, 2),
         fun _ => true, fun _ => 1⟩
        ⟨0, 1, (2, 2), false, 0⟩ 2
        = StepResult.cont ⟨2, 1, (1, 1), true, 2⟩ := by
      rw [runN_succ_of_cont _ _ _ 1 _ h1]
      norm_num [loopStep, trainStep, nextFmax]
    rw [runN_succ_of_cont _ _ _ 2 _ h2]
    norm_num [loopStep, trainStep, nextFmax]
  · norm_num

/-! ### C4 -/

/-- Claim C4, amended: in `cross_validate` the reference-side re-evaluation
touches only the interior probe images — the returned errors are unchanged
under any modification of the external reference oracle on the endpoint
geometries, since the endpoints' reference values come from the stored
training-set images instead — but the first and last images still
contribute to both `mae` metrics (through those stored values and the
surrogate's endpoint predictions; see the counterexample for a concrete
endpoint contribution). -/
theorem cross_validate_reference_touches_only_interior (calcIsGpaw : Bool)
    (g g' : Calc) (nebForces : List Image → List (List ℚ))
    (neb_images : List Image) (amp_calc : Calc) (ts_first ts_last : Image)
    (metric : String)
    (hE : ∀ im ∈ interiorOf neb_images, g.energy im.geom = g'.energy im.geom)
    (hF : ∀ im ∈ interiorOf neb_images, g.forces im.geom = g'.forces im.geom) :
    cross_validate calcIsGpaw g nebForces neb_images amp_calc ts_first
        ts_last metric
      = cross_validate calcIsGpaw g' nebForces neb_images amp_calc ts_first
        ts_last metric := by
  have hmap : (interiorOf neb_images).map (evalWith g)
      = (interiorOf neb_images).map (evalWith g') := by
    apply List.map_congr_left
    intro im him
    unfold evalWith
    rw [hE im him, hF im him]
  cases calcIsGpaw with
  | false => rfl
  | true =>
    simp only [cross_validate, if_true]
    rw [hmap]

/-- Witness for C4: two reference oracles that agree on the single interior
geometry but disagree on the endpoint geometries produce identical
cross-validation reports. -/
theorem cross_validate_reference_touches_only_interior_witness :
    (∀ im ∈ interiorOf [⟨0, 0, [[0, 0, 0]]⟩, ⟨1, 0, [[0, 0, 0]]⟩,
        ⟨2, 0, [[0, 0, 0]]⟩],
      (⟨fun gm => if gm = 1 then 7 else 100, fun _ => [[0, 0, 0]]⟩ :
          Calc).energy im.geom
        = (⟨fun gm => if gm = 1 then 7 else 55, fun _ => [[0, 0, 0]]⟩ :
          Calc).energy im.geom) ∧
    (∀ im ∈ interiorOf [⟨0, 0, [[0, 0, 0]]⟩, ⟨1, 0, [[0, 0, 0]]⟩,
        ⟨2, 0, [[0, 0, 0]]⟩],
      (⟨fun gm => if gm = 1 then 7 else 100, fun _ => [[0, 0, 0]]⟩ :
          Calc).forces im.geom
        = (⟨fun gm => if gm = 1 then 7 else 55, fun _ => [[0, 0, 0]]⟩ :
          Calc).forces im.geom) ∧
    cross_validate true ⟨fun gm => if gm = 1 then 7 else 100,
        fun _ => [[0, 0, 0]]⟩ (fun _ => [])
      [⟨0, 0, [[0, 0, 0]]⟩, ⟨1, 0, [[0, 0, 0]]⟩, ⟨2, 0, [[0, 0, 0]]⟩]
      ⟨fun _ => 0, fun _ => [[0, 0, 0]]⟩
      ⟨0, 5, [[0, 0, 0]]⟩ ⟨2, 9, [[0, 0, 0]]⟩ "mae"
      = cross_validate true ⟨fun gm => if gm = 1 then 7 else 55,
          fun _ => [[0, 0, 0]]⟩ (fun _ => [])
        [⟨0, 0, [[0, 0, 0]]⟩, ⟨1, 0, [[0, 0, 0]]⟩, ⟨2, 0, [[0, 0, 0]]⟩]
        ⟨fun _ => 0, fun _ => [[0, 0, 0]]⟩
        ⟨0, 5, [[0, 0, 0]]⟩ ⟨2, 9, [[0, 0, 0]]⟩ "mae" :=
  ⟨by decide, by decide,
    cross_validate_reference_touches_only_interior true _ _ _ _ _ _ _ _
      (by decide) (by decide)⟩

/-- Counterexample to C4 as stated: under the `mae` metric the first and
last images are NOT excluded.  With stored endpoint reference energies
`5, 9`, an interior reference energy `7` and surrogate energies `6, 7, 9`,
the returned energy error is `(|5-6| + |7-7| + |9-9|)/3 = 1/3`, while the
interior-only mean absolute error the claim describes would be
`maeList [7] [7] = 0`: the whole error comes from an endpoint. -/
theorem cross_validate_mae_scores_endpoints :
    (cross_validate true ⟨fun _ => 7, fun _ => [[0, 0, 0]]⟩ (fun _ => [])
        [⟨0, 0, [[0, 0, 0]]⟩, ⟨1, 0, [[0, 0, 0]]⟩, ⟨2, 0, [[0, 0, 0]]⟩]
        ⟨fun gm => if gm = 0 then 6 else if gm = 1 then 7 else 9,
          fun _ => [[0, 0, 0]]⟩
        ⟨0, 5, [[0, 0, 0]]⟩ ⟨2, 9, [[0, 0, 0]]⟩ "mae").map Prod.fst
      = some (1 / 3) ∧
    maeList [7] [7] = 0 ∧ ¬ ((1 : ℚ) / 3 = 0) := by
  refine ⟨?_, by norm_num [maeList], by norm_num⟩
  norm_num [cross_validate, evalWith, sumAxis1, maeList, interiorOf,
    show ¬ ("mae" : String) = "fmax" from by decide,
    show pyLower "mae" = "mae" from by decide,
    abs_sub_comm, abs_of_nonneg, abs_of_nonpos]

/-! ### C5 -/

/-- Claim C5, amended: for the 3-image probe scenario with reference
energies `[1, 2, 3]` (stored endpoints `1` and `3`, interior re-evaluated
to `2`) and surrogate energies `[1.1, 1.9, 3.2]`, the `mae` metric returns
energy error `(|1-1.1| + |2-1.9| + |3-3.2|)/3 = 2/15 ≈ 0.1333` — the mean
of the three absolute per-image differences — not `0.1`. -/
theorem cross_validate_mae_scenario_value :
    cross_validate true ⟨fun _ => 2, fun _ => [[0, 0, 0]]⟩ (fun _ => [])
      [⟨0, 0, [[0, 0, 0]]⟩, ⟨1, 0, [[0, 0, 0]]⟩, ⟨2, 0, [[0, 0, 0]]⟩]
      ⟨fun gm => if gm = 0 then 11 / 10 else if gm = 1 then 19 / 10
          else 16 / 5,
        fun _ => [[0, 0, 0]]⟩
      ⟨0, 1, [[0, 0, 0]]⟩ ⟨2, 3, [[0, 0, 0]]⟩ "mae"
      = some (2 / 15, 0) := by
  norm_num [cross_validate, evalWith, sumAxis1, maeList, interiorOf,
    show ¬ ("mae" : String) = "fmax" from by decide,
    show pyLower "mae" = "mae" from by decide,
    abs_sub_comm, abs_of_nonneg, abs_of_nonpos]

/-- Counterexample to C5 as stated: on that same probe scenario the
returned energy error is not `0.1` (it is `2/15`). -/
theorem cross_validate_mae_scenario_not_tenth :
    (cross_validate true ⟨fun _ => 2, fun _ => [[0, 0, 0]]⟩ (fun _ => [])
        [⟨0, 0, [[0, 0, 0]]⟩, ⟨1, 0, [[0, 0, 0]]⟩, ⟨2, 0, [[0, 0, 0]]⟩]
        ⟨fun gm => if gm = 0 then 11 / 10 else if gm = 1 then 19 / 10
            else 16 / 5,
          fun _ => [[0, 0, 0]]⟩
        ⟨0, 1, [[0, 0, 0]]⟩ ⟨2, 3, [[0, 0, 0]]⟩ "mae").map Prod.fst
      ≠ some (1 / 10) := by
  norm_num [cross_validate, evalWith, sumAxis1, maeList, interiorOf,
    show ¬ ("mae" : String) = "fmax" from by decide,
    show pyLower "mae" = "mae" from by decide,
    abs_sub_comm, abs_of_nonneg, abs_of_nonpos]

/-! ### C6 -/

/-- Claim C6 (code bug): under the `fmax` metric the returned pair does
consist of two equal components computed by `get_fmax` from the assembled
`dft_images` — but when the reference calculator is not GPAW those interior
images are evaluated with the SURROGATE (line 693 of `neb.py` passes
`amp_calc`, not the documented-but-unused `calc` parameter, to
`set_calculators`), so surrogate predictions do enter the returned value:
keeping every other input fixed and changing only the surrogate's interior
forces from `[[1,0,0]]` to `[[2,0,0]]` changes the report from `(1, 1)` to
`(4, 4)` (squared-norm maxima; the source applies the monotone `np.sqrt` on
top). -/
theorem cross_validate_fmax_depends_on_surrogate :
    cross_validate false ⟨fun _ => 0, fun _ => []⟩
        (fun l => (l.map Image.storedF).flatten)
        [⟨0, 1, [[0, 0, 0]]⟩, ⟨1, 2, [[0, 0, 0]]⟩, ⟨2, 3, [[0, 0, 0]]⟩]
        ⟨fun _ => 0, fun gm => if gm = 1 then [[1, 0, 0]] else [[0, 0, 0]]⟩
        ⟨0, 1, [[0, 0, 0]]⟩ ⟨2, 3, [[0, 0, 0]]⟩ "fmax"
      = some (1, 1) ∧
    cross_validate false ⟨fun _ => 0, fun _ => []⟩
        (fun l => (l.map Image.storedF).flatten)
        [⟨0, 1, [[0, 0, 0]]⟩, ⟨1, 2, [[0, 0, 0]]⟩, ⟨2, 3, [[0, 0, 0]]⟩]
        ⟨fun _ => 0, fun gm => if gm = 1 then [[2, 0, 0]] else [[0, 0, 0]]⟩
        ⟨0, 1, [[0, 0, 0]]⟩ ⟨2, 3, [[0, 0, 0]]⟩ "fmax"
      = some (4, 4) := by
  constructor <;>
    norm_num [cross_validate, evalWith, sumAxis1, interiorOf, get_fmax_sq]

/-! ### C8 -/

theorem charListLe_total : ∀ a b : List Char,
    charListLe a b = true ∨ charListLe b a = true := by
  intro a
  induction a with
  | nil => intro b; left; rfl
  | cons c cs ih =>
    intro b
    cases b with
    | nil => right; rfl
    | cons d ds =>
      simp only [charListLe]
      rcases Nat.lt_trichotomy c.toNat d.toNat with h | h | h
      · left
        rw [if_pos h]
      · have h1 : ¬ c.toNat < d.toNat := by omega
        have h2 : ¬ d.toNat < c.toNat := by omega
        simp only [if_neg h1, if_neg h2]
        exact ih ds
      · right
        rw [if_pos h]

theorem charListLe_trans : ∀ a b c : List Char, charListLe a b = true →
    charListLe b c = true → charListLe a c = true := by
  intro a
  induction a with
  | nil =>
    intro b c _ _
    rfl
  | cons x xs ih =>
    intro b c hab hbc
    cases b with
    | nil => simp [charListLe] at hab
    | cons y ys =>
      cases c with
      | nil => simp [charListLe] at hbc
      | cons z zs =>
        simp only [charListLe] at hab hbc ⊢
        by_cases h1 : x.toNat < y.toNat
        · by_cases h2 : y.toNat < z.toNat
          · rw [if_pos (show x.toNat < z.toNat by omega)]
          · by_cases h3 : z.toNat < y.toNat
            · simp only [if_neg h2, if_pos h3] at hbc
              cases hbc
            · rw [if_pos (show x.toNat < z.toNat by omega)]
        · by_cases h4 : y.toNat < x.toNat
          · simp only [if_neg h1, if_pos h4] at hab
            cases hab
          · simp only [if_neg h1, if_neg h4] at hab
            by_cases h2 : y.toNat < z.toNat
            · rw [if_pos (show x.toNat < z.toNat by omega)]
            · by_cases h3 : z.toNat < y.toNat
              · simp only [if_neg h2, if_pos h3] at hbc
                cases hbc
              · simp only [if_neg h2, if_neg h3] at hbc
                rw [if_neg (show ¬ x.toNat < z.toNat by omega),
                  if_neg (show ¬ z.toNat < x.toNat by omega)]
                exact ih ys zs hab hbc

instance : IsTotal String pyStrLe :=
  ⟨fun s t => charListLe_total s.data t.data⟩

instance : IsTrans String pyStrLe :=
  ⟨fun a b c hab hbc => charListLe_trans a.data b.data c.data hab hbc⟩

theorem sorted_getLast_max {α : Type} {r : α → α → Prop} :
    ∀ (l : List α) (h : l ≠ []), l.Sorted r →
      ∀ x ∈ l, x = l.getLast h ∨ r x (l.getLast h) := by
  intro l
  induction l with
  | nil =>
    intro h
    exact absurd rfl h
  | cons a t ih =>
    intro h hs x hx
    cases t with
    | nil =>
      rcases List.mem_singleton.mp hx with rfl
      left
      rfl
    | cons b u =>
      have hne : b :: u ≠ [] := List.cons_ne_nil b u
      have hlast : (a :: b :: u).getLast h = (b :: u).getLast hne :=
        List.getLast_cons hne
      rcases List.mem_cons.mp hx with rfl | hx2
      · right
        rw [hlast]
        exact (List.sorted_cons.mp hs).1 _ (List.getLast_mem hne)
      · rcases ih hne (List.sorted_cons.mp hs).2 x hx2 with h1 | h1
        · left
          rw [hlast]
          exact h1
        · right
          rw [hlast]
          exact h1

theorem pyStrLe_firstChar_toNat_le (x y : String) (hx : x.data ≠ [])
    (h : pyStrLe x y) : (firstChar x).toNat ≤ (firstChar y).toNat := by
  unfold pyStrLe at h
  unfold firstChar
  cases hcx : x.data with
  | nil => exact absurd hcx hx
  | cons c cs =>
    cases hcy : y.data with
    | nil =>
      rw [hcx, hcy] at h
      simp [charListLe] at h
    | cons b bs =>
      rw [hcx, hcy] at h
      simp only [charListLe] at h
      simp only [List.headD_cons]
      by_cases h1 : c.toNat < b.toNat
      · exact le_of_lt h1
      · by_cases h2 : b.toNat < c.toNat
        · simp only [if_neg h1, if_pos h2] at h
          cases h
        · omega

/-- Claim C8, amended: when every `*.txt` filename in the listing starts
with a decimal digit (true of the per-iteration files `check_files` is
meant to scan, and only sound when every iteration number has a single
digit), `check_files` returns as `digit` the one-character string holding
the LARGEST leading digit present — the highest single-digit iteration —
together with the matching `neb_<digit>.traj` name when that file exists
(`none` models Python's `False` when it does not).  For two-digit
iteration numbers this breaks down: see the counterexample. -/
theorem check_files_returns_max_leading_digit (L : List String)
    (isfile : String → Bool) (d : Char)
    (hdmem : ∃ x ∈ L, firstChar x = d)
    (hmax : ∀ x ∈ L, (firstChar x).toNat ≤ d.toNat)
    (hdig : ∀ x ∈ L, x.data ≠ [] ∧ (firstChar x).isDigit = true) :
    (check_files L isfile).2 = some (String.mk [d]) ∧
    (check_files L isfile).1 =
      (if isfile ("neb_" ++ String.mk [d] ++ ".traj") = true
       then some ("neb_" ++ String.mk [d] ++ ".traj") else none) := by
  have hmemSL : ∀ x, x ∈ List.insertionSort pyStrLe L ↔ x ∈ L :=
    fun x => (List.perm_insertionSort pyStrLe L).mem_iff
  have hal : "amp-log.txt" ∉ L := by
    intro hm
    have hd2 := (hdig _ hm).2
    have hfc : firstChar "amp-log.txt" = 'a' := by decide
    rw [hfc] at hd2
    exact absurd hd2 (by decide)
  have hout : "out.txt" ∉ L := by
    intro hm
    have hd2 := (hdig _ hm).2
    have hfc : firstChar "out.txt" = 'o' := by decide
    rw [hfc] at hd2
    exact absurd hd2 (by decide)
  have e2 : ((List.insertionSort pyStrLe L).erase "amp-log.txt").erase
      "out.txt" = List.insertionSort pyStrLe L := by
    rw [List.erase_of_not_mem (fun hm => hal ((hmemSL _).mp hm))]
    exact List.erase_of_not_mem (fun hm => hout ((hmemSL _).mp hm))
  obtain ⟨x0, hx0, hx0d⟩ := hdmem
  have hSLne : List.insertionSort pyStrLe L ≠ [] := by
    intro hnil
    have hx0SL : x0 ∈ List.insertionSort pyStrLe L := (hmemSL x0).mpr hx0
    rw [hnil] at hx0SL
    cases hx0SL
  have hsorted : (List.insertionSort pyStrLe L).Sorted pyStrLe :=
    List.sorted_insertionSort pyStrLe L
  have hlastmem : (List.insertionSort pyStrLe L).getLast hSLne ∈ L :=
    (hmemSL _).mp (List.getLast_mem hSLne)
  have hfcle :
      (firstChar ((List.insertionSort pyStrLe L).getLast hSLne)).toNat ≤
        d.toNat := hmax _ hlastmem
  have hge : d.toNat ≤
      (firstChar ((List.insertionSort pyStrLe L).getLast hSLne)).toNat := by
    rcases sorted_getLast_max _ hSLne hsorted x0 ((hmemSL x0).mpr hx0)
      with h1 | h1
    · rw [← hx0d, h1]
    · rw [← hx0d]
      exact pyStrLe_firstChar_toNat_le x0 _ (hdig x0 hx0).1 h1
  have hfc : firstChar ((List.insertionSort pyStrLe L).getLast hSLne) = d := by
    have hnat :
        (firstChar ((List.insertionSort pyStrLe L).getLast hSLne)).toNat
          = d.toNat := le_antisymm hfcle hge
    calc firstChar ((List.insertionSort pyStrLe L).getLast hSLne)
        = Char.ofNat
            (firstChar ((List.insertionSort pyStrLe L).getLast
              hSLne)).toNat := (Char.ofNat_toNat _).symm
      _ = Char.ofNat d.toNat := by rw [hnat]
      _ = d := Char.ofNat_toNat d
  have hdigit :
      String.mk
        ((((List.insertionSort pyStrLe L).getLast hSLne)).data.take 1)
        = String.mk [d] := by
    obtain ⟨hne2, -⟩ := hdig _ hlastmem
    cases hc : ((List.insertionSort pyStrLe L).getLast hSLne).data with
    | nil => exact absurd hc hne2
    | cons c cs =>
      have hcfc : firstChar ((List.insertionSort pyStrLe L).getLast hSLne)
          = c := by
        unfold firstChar
        rw [hc]
        rfl
      have hcd : c = d := hcfc.symm.trans hfc
      rw [show List.take 1 (c :: cs) = [c] from rfl, hcd]
  have hgetD : (List.insertionSort pyStrLe L).getLastD ""
      = (List.insertionSort pyStrLe L).getLast hSLne := by
    rw [List.getLastD_eq_getLast?, List.getLast?_eq_getLast _ hSLne]
    rfl
  have hlen : (List.insertionSort pyStrLe L).length ≠ 0 := by
    intro h0
    exact hSLne (List.length_eq_zero.mp h0)
  simp only [check_files]
  rw [e2, if_pos hlen, hgetD, hdigit]
  split_ifs <;> exact ⟨rfl, rfl⟩

/-- Witness for C8: in the listing `3-a.txt, 7-b.txt, 5.txt` every name
starts with a digit and `7` is the largest; `check_files` (with no
trajectory files on disk) reports digit `"7"` and no `neb_7.traj`. -/
theorem check_files_returns_max_leading_digit_witness :
    (∃ x ∈ (["3-a.txt", "7-b.txt", "5.txt"] : List String),
      firstChar x = '7') ∧
    (∀ x ∈ (["3-a.txt", "7-b.txt", "5.txt"] : List String),
      (firstChar x).toNat ≤ ('7' : Char).toNat) ∧
    (∀ x ∈ (["3-a.txt", "7-b.txt", "5.txt"] : List String),
      x.data ≠ [] ∧ (firstChar x).isDigit = true) ∧
    ((check_files ["3-a.txt", "7-b.txt", "5.txt"] (fun _ => false)).2
        = some (String.mk ['7']) ∧
     (check_files ["3-a.txt", "7-b.txt", "5.txt"] (fun _ => false)).1
        = (if (fun _ => false) ("neb_" ++ String.mk ['7'] ++ ".traj") = true
           then some ("neb_" ++ String.mk ['7'] ++ ".traj") else none)) :=
  ⟨by decide, by decide, by decide,
    check_files_returns_max_leading_digit _ _ '7' (by decide) (by decide)
      (by decide)⟩

/-- Counterexample to C8 as stated: with iterations 9 and 10 on disk the
highest-numbered completed iteration is 10, but `check_files` sorts
lexicographically (so `10-a.txt` precedes `9-a.txt`) and then keeps only
the FIRST character of the last filename, reporting iteration `"9"`, not
`"10"`. -/
theorem check_files_misreads_two_digit_iteration :
    (check_files ["10-a.txt", "9-a.txt"] (fun _ => false)).2 = some "9" ∧
    highestIterationSpec ["10-a.txt", "9-a.txt"] = 10 ∧
    (check_files ["10-a.txt", "9-a.txt"] (fun _ => false)).2 ≠ some "10" := by
  decide
